import Mathlib

/-!
Verification of the CountMyLines counting engine (counter.py, errors.py).

The Python source is embedded shallowly: paths are lists of components,
file contents are lists of characters, the filesystem is a partial map
from paths to contents, and the mutable `LineCounter` state is passed
explicitly.  Counts are modelled as `Int` (Python integers), so the
non-negativity claims are real statements rather than artifacts of `Nat`.
-/

/-- A filesystem path, as its list of components. -/
abbrev FPath := List String

/-- The single quote character (U+0027). -/
def squote : Char := Char.ofNat 39

/-- The double quote character (U+0022). -/
def dquote : Char := Char.ofNat 34

/-- The delimiter written as three single quotes in the source. -/
def tripleS : List Char := [squote, squote, squote]

/-- The delimiter written as three double quotes in the source. -/
def tripleD : List Char := [dquote, dquote, dquote]

/-- The single-line comment marker `#`. -/
def hashMark : List Char := ['#']

/-- Characters removed by Python `str.strip()` (the ASCII whitespace set). -/
def isPySpace (c : Char) : Bool :=
  c = ' ' || c = '\t' || c = '\n' || c = '\r' || c = '\x0b' || c = '\x0c'

/-- Python `str.strip()`: remove leading and trailing whitespace. -/
def pyStrip (l : List Char) : List Char :=
  ((l.dropWhile isPySpace).reverse.dropWhile isPySpace).reverse

/-- Characters treated as line boundaries by Python `str.splitlines()`. -/
def isLineBreak (c : Char) : Bool :=
  c = '\n' || c = '\r' || c = '\x0b' || c = '\x0c' ||
  c = '\x1c' || c = '\x1d' || c = '\x1e' ||
  c = Char.ofNat 133 || c = Char.ofNat 8232 || c = Char.ofNat 8233

/-- Worker for `splitlines`: `acc` holds the current line reversed.
A final line produced by a trailing terminator is dropped, and `\r\n`
counts as a single boundary, exactly as in Python `str.splitlines()`. -/
def splitlinesAux : List Char → List Char → List (List Char)
  | [], acc => if acc = [] then [] else [acc.reverse]
  | [c], acc =>
      if isLineBreak c then [acc.reverse]
      else [(c :: acc).reverse]
  | c :: d :: rest, acc =>
      if isLineBreak c then
        if c = '\r' ∧ d = '\n' then acc.reverse :: splitlinesAux rest []
        else acc.reverse :: splitlinesAux (d :: rest) []
      else splitlinesAux (d :: rest) (c :: acc)

/-- Python `str.splitlines()`, as used in `count_file` (`f.read().splitlines()`). -/
def splitlines (cs : List Char) : List (List Char) :=
  splitlinesAux cs []

/-- Worker for `splitKeep`; identical to `splitlinesAux` except that the
segment pending at the end of input is always emitted. -/
def splitKeepAux : List Char → List Char → List (List Char)
  | [], acc => [acc.reverse]
  | [c], acc =>
      if isLineBreak c then [acc.reverse, []]
      else [(c :: acc).reverse]
  | c :: d :: rest, acc =>
      if isLineBreak c then
        if c = '\r' ∧ d = '\n' then acc.reverse :: splitKeepAux rest []
        else acc.reverse :: splitKeepAux (d :: rest) []
      else splitKeepAux (d :: rest) (c :: acc)

/-- The naive line split that keeps the empty final segment produced by a
trailing terminator.  It is used only to compare against `splitlines` when
stating that the trailing empty line is not counted. -/
def splitKeep (cs : List Char) : List (List Char) :=
  splitKeepAux cs []

/-- Wellformedness of the last character: content ends with a line boundary. -/
def endsWithBreak : List Char → Bool
  | [] => false
  | [c] => isLineBreak c
  | _ :: d :: rest => endsWithBreak (d :: rest)

/-- The output-detail selector (`Detail = Literal["minimal","basic","full"]`). -/
inductive Detail where
  | minimal
  | basic
  | full
deriving DecidableEq, Repr

/-- The `Settings` dataclass. -/
structure Settings where
  path : FPath
  ignoreNames : List String
  ignorePaths : List FPath
  recursive : Bool
  outputDetail : Detail
deriving DecidableEq, Repr

/-- The `FileData` dataclass; counts are Python integers. -/
structure FileData where
  file : FPath
  totalLines : Int
  commentLines : Int
  codeLines : Int
  blankLines : Int
deriving DecidableEq, Repr

/-- The record `FileData(file, 0, 0, 0, 0)` that `count_file` starts from. -/
def initFileData (file : FPath) : FileData :=
  ⟨file, 0, 0, 0, 0⟩

/-- The loop state of `count_file`: the record under construction together
with the `inMultiLineComment` flag. -/
structure CountSt where
  data : FileData
  inMultiLineComment : Bool
deriving DecidableEq, Repr

/-- One iteration of the loop in `count_file` (counter.py lines 79-112). -/
def countLineStep (st : CountSt) (line : List Char) : CountSt :=
  let d := { st.data with totalLines := st.data.totalLines + 1 }
  let strippedLine := pyStrip line
  if hashMark.isPrefixOf strippedLine then
    { st with data := { d with commentLines := d.commentLines + 1 } }
  else if tripleS.isPrefixOf strippedLine || tripleD.isPrefixOf strippedLine then
    if tripleS.isSuffixOf strippedLine || tripleD.isSuffixOf strippedLine then
      { st with data := { d with commentLines := d.commentLines + 1 } }
    else
      { data := { d with commentLines := d.commentLines + 1 },
        inMultiLineComment := !st.inMultiLineComment }
  else if st.inMultiLineComment then
    { st with data := { d with commentLines := d.commentLines + 1 } }
  else if strippedLine = [] then
    { st with data := { d with blankLines := d.blankLines + 1 } }
  else
    { st with data := { d with codeLines := d.codeLines + 1 } }

/-- The whole classification loop of `count_file` over the split lines. -/
def countLines (file : FPath) (lines : List (List Char)) : CountSt :=
  lines.foldl countLineStep ⟨initFileData file, false⟩

/-- The typed failures of the counting engine: `FileNotFoundError` raised by
`open`/`count_files`, and `CommentNotClosedError` from errors.py. -/
inductive CounterError where
  | fileNotFound (file : FPath)
  | commentNotClosed (file : FPath)
deriving DecidableEq, Repr

/-- The filesystem seen by `open`: the content of each existing file. -/
abbrev FileSystem := FPath → Option (List Char)

/-- Method `LineCounter.count_file`: read the file, classify every line, raise
`CommentNotClosedError` if the multi-line state is still open, otherwise
append the record to the session's list.  The first component is the
session's `_fileDatas` after the call; the second is the raised error, if
any (on an exception the already-accumulated list is left untouched). -/
def count_file (ds : List FileData) (file : FPath) (fs : FileSystem) :
    List FileData × Option CounterError :=
  match fs file with
  | none => (ds, some (.fileNotFound file))
  | some content =>
      let st := countLines file (splitlines content)
      if st.inMultiLineComment then (ds, some (.commentNotClosed file))
      else (ds ++ [st.data], none)

/-- Method `LineCounter.count_files`: re-check existence of each path, then count
it; the first exception aborts the remaining iterations. -/
def count_files (ds : List FileData) (files : List FPath) (fs : FileSystem) :
    List FileData × Option CounterError :=
  match files with
  | [] => (ds, none)
  | f :: rest =>
      if (fs f).isNone then (ds, some (.fileNotFound f))
      else
        match count_file ds f fs with
        | (ds2, none) => count_files ds2 rest fs
        | (ds2, some e) => (ds2, some e)

/-! ### Line classes, as in spec section 4.2 -/

/-- The three classes a line is tallied under. -/
inductive LineClass where
  | comment
  | code
  | blank
deriving DecidableEq, Repr

/-- Transcription of the spec's per-line classification precedence
(section 4.2, steps 1-5), stated on the stripped line, for comparison
against `countLineStep`. -/
def specClassify (inML : Bool) (stripped : List Char) : LineClass :=
  if hashMark.isPrefixOf stripped then .comment
  else if tripleS.isPrefixOf stripped || tripleD.isPrefixOf stripped then .comment
  else if inML then .comment
  else if stripped = [] then .blank
  else .code

/-- Transcription of the spec's state-update rule (section 4.2, step 2):
only a delimiter-starting line that does not also end with a delimiter
toggles the flag. -/
def specNextState (inML : Bool) (stripped : List Char) : Bool :=
  if hashMark.isPrefixOf stripped then inML
  else if tripleS.isPrefixOf stripped || tripleD.isPrefixOf stripped then
    if tripleS.isSuffixOf stripped || tripleD.isSuffixOf stripped then inML
    else !inML
  else inML

/-- The record invariant of a produced `FileData`. -/
def recInv (d : FileData) : Prop :=
  d.totalLines = d.commentLines + d.codeLines + d.blankLines ∧
  0 ≤ d.totalLines ∧ 0 ≤ d.commentLines ∧ 0 ≤ d.codeLines ∧ 0 ≤ d.blankLines

/-! ### File discovery (`LineCounter.get_py_files`) -/

/-- The module constant `PYTHON_FILE_EXTENSIONS = [".py"]`. -/
def PYTHON_FILE_EXTENSIONS : List String := [".py"]

/-- The characters of `pathlib`'s `suffix` of a file name: the part from
the last dot on, provided that dot is neither the first nor the last
character of the name. -/
def suffixChars (name : List Char) : List Char :=
  let afterRev := name.reverse.takeWhile (fun c => ¬ c = '.')
  if afterRev.length = name.length then []
  else if 0 < name.length - afterRev.length - 1 ∧ 0 < afterRev.length then
    '.' :: afterRev.reverse
  else []

/-- `Path.suffix` of a bare name. -/
def pySuffix (name : String) : String := ⟨suffixChars name.toList⟩

/-- `Path.name`: the last component of a path. -/
def pathName (p : FPath) : String := p.getLast?.getD ""

mutual
/-- A directory-tree node as seen by `Path.is_file`/`Path.iterdir`. -/
inductive Entry where
  | file (name : String)
  | dir (name : String) (children : EntryList)

/-- The ordered entries of a directory, in `iterdir` order. -/
inductive EntryList where
  | nil
  | cons (e : Entry) (rest : EntryList)
end

mutual
/-- One iteration of the loop in `get_py_files` (counter.py lines 138-168),
for the entry at `p ++ [name]`. -/
def walkEntry (s : Settings) (p : FPath) : Entry → List FPath
  | Entry.file nm =>
      if pySuffix nm ∉ PYTHON_FILE_EXTENSIONS then []
      else if nm ∈ s.ignoreNames then []
      else if (p ++ [nm]) ∈ s.ignorePaths then []
      else [p ++ [nm]]
  | Entry.dir nm es =>
      if nm ∈ s.ignoreNames then []
      else if (p ++ [nm]) ∈ s.ignorePaths then []
      else if s.recursive = false then []
      else walkEntries s (p ++ [nm]) es

/-- The whole loop of `get_py_files` over a directory's entries. -/
def walkEntries (s : Settings) (p : FPath) : EntryList → List FPath
  | EntryList.nil => []
  | EntryList.cons e rest => walkEntry s p e ++ walkEntries s p rest
end

/-- The failure of `get_py_files` on a root that is neither a directory
nor a Python file (a `ValueError` in the source). -/
inductive DiscoverError where
  | valueError (p : FPath)
deriving DecidableEq, Repr

/-- Method `LineCounter.get_py_files` on the root path `p`, whose node in the
tree is `e`: a file root is returned as a singleton if its extension
matches, otherwise the call fails; a directory root is walked. -/
def get_py_files (s : Settings) (p : FPath) (e : Entry) :
    Except DiscoverError (List FPath) :=
  match e with
  | Entry.file _ =>
      if pySuffix (pathName p) ∈ PYTHON_FILE_EXTENSIONS then .ok [p]
      else .error (.valueError p)
  | Entry.dir _ es => .ok (walkEntries s p es)

/-! ### Aggregation (`LineCounter.print_file_data`, lines 202-214) -/

/-- Helper `_zero_safe_division`: division that yields `0.0` on a zero
denominator. -/
def zero_safe_division (numerator denominator : Int) : Rat :=
  if denominator = 0 then 0 else (numerator : Rat) / (denominator : Rat)

/-- The aggregate totals and percentage ratios printed for a collection. -/
structure AggregateResult where
  totalLines : Int
  commentLines : Int
  codeLines : Int
  blankLines : Int
  blankCodePercent : Rat
  commentCodePercent : Rat
deriving DecidableEq, Repr

/-- The aggregate computation of `print_file_data`: sums of each count and
the two zero-guarded percentage ratios. -/
def aggregate (ds : List FileData) : AggregateResult :=
  let totalLines := (ds.map (fun d => d.totalLines)).sum
  let commentLines := (ds.map (fun d => d.commentLines)).sum
  let codeLines := (ds.map (fun d => d.codeLines)).sum
  let blankLines := (ds.map (fun d => d.blankLines)).sum
  ⟨totalLines, commentLines, codeLines, blankLines,
    zero_safe_division blankLines codeLines * 100,
    zero_safe_division commentLines codeLines * 100⟩

/-! ### The `get_arbitrary_settings` call (counter.py lines 47-54) -/

/-- The runtime values occurring in the `get_arbitrary_settings` call. -/
inductive PyValue where
  | pathVal (p : FPath)
  | strListVal (l : List String)
  | pathListVal (l : List FPath)
  | boolVal (b : Bool)
  | strVal (s : String)
deriving DecidableEq, Repr

/-- The field names of the `Settings` dataclass in declaration order; all
five are required positional parameters of the generated constructor. -/
def settingsFieldNames : List String :=
  ["path", "ignoreNames", "ignorePaths", "recursive", "outputDetail"]

/-- Python call semantics for a dataclass-generated constructor with no
defaults: the call succeeds only when one positional argument is supplied
per field, and raises `TypeError` otherwise. -/
def dataclassInit (fieldNames : List String) (args : List PyValue) :
    Except String (List PyValue) :=
  if args.length = fieldNames.length then .ok args else .error "TypeError"

/-- Function `get_arbitrary_settings`, which calls the `Settings`
constructor with four positional arguments. -/
def get_arbitrary_settings (cwd : FPath) : Except String (List PyValue) :=
  dataclassInit settingsFieldNames
    [.pathVal cwd,
     .strListVal ["venv", ".git", ".env", ".vscode", ".idea", "__pycache__"],
     .pathListVal [],
     .boolVal true]

/-! ### Concrete fixtures used in the theorems below -/

/-- A one-file filesystem used to witness the success case of `count_file`. -/
def fsOneCode : FileSystem :=
  fun p => if p = ["a.py"] then some "x = 1".toList else none

/-- The content of a file holding exactly the single line of a one-line
docstring. -/
def inlineDocContent : List Char := tripleS ++ "docstring".toList ++ tripleS

/-- A filesystem holding only that one-line docstring file. -/
def fsInlineDoc : FileSystem :=
  fun p => if p = ["d.py"] then some inlineDocContent else none

/-- Content splitting into exactly the three lines of a bare triple-quote
pair around the word inside. -/
def bareTripleContent : List Char :=
  tripleS ++ ['\n'] ++ "inside".toList ++ ['\n'] ++ tripleS

/-- A filesystem holding only that three-line file. -/
def fsBareTriple : FileSystem :=
  fun p => if p = ["f.py"] then some bareTripleContent else none

/-- The content of an unterminated multi-line comment: a line that starts
with a delimiter but does not end with one, never closed. -/
def unterminatedContent : List Char := tripleS ++ "ab".toList

/-- A filesystem holding only that unterminated file. -/
def fsUnterminated : FileSystem :=
  fun p => if p = ["u.py"] then some unterminatedContent else none

/-- A filesystem for the batch examples: one clean file, one unterminated
file, nothing else. -/
def fsBatch : FileSystem :=
  fun p =>
    if p = ["a.py"] then some "x = 1".toList
    else if p = ["u.py"] then some (tripleS ++ "ab".toList)
    else none

/-- Settings whose ignore-name list contains the root file's own name. -/
def sIgnoredRoot : Settings := ⟨["a.py"], ["a.py"], [], true, .basic⟩

/-- Settings and a directory tree used to witness the directory branch of
discovery. -/
def sWalk : Settings := ⟨["root"], ["venv"], [], true, .basic⟩

/-- The directory tree under the walked root. -/
def treeWalk : EntryList :=
  .cons (.file "a.py")
    (.cons (.file "b.txt")
      (.cons (.dir "venv" (.cons (.file "c.py") .nil)) .nil))

/-! ## Theorems -/

/-- The classification step agrees with the spec's precedence table. -/
theorem countLineStep_spec (st : CountSt) (line : List Char) :
    (countLineStep st line).data.file = st.data.file ∧
    (countLineStep st line).data.totalLines = st.data.totalLines + 1 ∧
    (countLineStep st line).inMultiLineComment
      = specNextState st.inMultiLineComment (pyStrip line) ∧
    (countLineStep st line).data.commentLines = st.data.commentLines +
      (if specClassify st.inMultiLineComment (pyStrip line) = .comment then 1 else 0) ∧
    (countLineStep st line).data.codeLines = st.data.codeLines +
      (if specClassify st.inMultiLineComment (pyStrip line) = .code then 1 else 0) ∧
    (countLineStep st line).data.blankLines = st.data.blankLines +
      (if specClassify st.inMultiLineComment (pyStrip line) = .blank then 1 else 0) := by
  simp only [countLineStep, specClassify, specNextState]
  split_ifs <;> simp_all

/-- The step preserves the record invariant. -/
theorem countLineStep_inv (st : CountSt) (line : List Char) (h : recInv st.data) :
    recInv (countLineStep st line).data := by
  obtain ⟨-, ht, -, hc, hco, hb⟩ := countLineStep_spec st line
  unfold recInv at h ⊢
  cases hcl : specClassify st.inMultiLineComment (pyStrip line) <;>
    simp [hcl] at hc hco hb <;> omega

/-- The fold preserves the record invariant. -/
theorem countFold_inv (lines : List (List Char)) (st : CountSt) (h : recInv st.data) :
    recInv ((lines.foldl countLineStep st).data) := by
  induction lines generalizing st with
  | nil => simpa
  | cons l ls ih => exact ih _ (countLineStep_inv _ _ h)

/-- The record built by the classification loop satisfies the invariant. -/
theorem countLines_inv (file : FPath) (lines : List (List Char)) :
    recInv (countLines file lines).data :=
  countFold_inv _ _ (by simp [recInv, initFileData])

/-- C1: whenever `count_file` succeeds, the produced record satisfies
`totalLines = commentLines + codeLines + blankLines` and all four count
fields are non-negative. -/
theorem count_file_success_invariant (ds : List FileData) (file : FPath)
    (fs : FileSystem) (h : (count_file ds file fs).2 = none) :
    ∃ d, (count_file ds file fs).1 = ds ++ [d] ∧
      d.totalLines = d.commentLines + d.codeLines + d.blankLines ∧
      0 ≤ d.totalLines ∧ 0 ≤ d.commentLines ∧ 0 ≤ d.codeLines ∧ 0 ≤ d.blankLines := by
  cases hfs : fs file with
  | none =>
      unfold count_file at h
      rw [hfs] at h
      simp at h
  | some content =>
      have hrw : count_file ds file fs
          = if (countLines file (splitlines content)).inMultiLineComment then
              (ds, some (.commentNotClosed file))
            else (ds ++ [(countLines file (splitlines content)).data], none) := by
        unfold count_file
        rw [hfs]
      rw [hrw] at h ⊢
      by_cases hm : (countLines file (splitlines content)).inMultiLineComment
      · simp [hm] at h
      · refine ⟨(countLines file (splitlines content)).data, by simp [hm], ?_⟩
        have hi := countLines_inv file (splitlines content)
        unfold recInv at hi
        tauto

/-- Witness for C1 at a concrete one-line file. -/
theorem count_file_success_invariant_w :
    (count_file [] ["a.py"] fsOneCode).2 = none ∧
    ∃ d, (count_file [] ["a.py"] fsOneCode).1 = [] ++ [d] ∧
      d.totalLines = d.commentLines + d.codeLines + d.blankLines ∧
      0 ≤ d.totalLines ∧ 0 ≤ d.commentLines ∧ 0 ≤ d.codeLines ∧ 0 ≤ d.blankLines :=
  ⟨by decide, count_file_success_invariant [] ["a.py"] fsOneCode (by decide)⟩

/-- C3: each line is classified exactly once, on the stripped line, by the
exact precedence hash-comment, triple-quote (with its toggle rule),
open-multi-line, blank, code; `totalLines` is incremented for every line
regardless of the class, and the state changes only as the toggle rule
says. -/
theorem countLineStep_follows_precedence (st : CountSt) (line : List Char) :
    (countLineStep st line).data.totalLines = st.data.totalLines + 1 ∧
    (countLineStep st line).inMultiLineComment
      = specNextState st.inMultiLineComment (pyStrip line) ∧
    (countLineStep st line).data.commentLines = st.data.commentLines +
      (if specClassify st.inMultiLineComment (pyStrip line) = .comment then 1 else 0) ∧
    (countLineStep st line).data.codeLines = st.data.codeLines +
      (if specClassify st.inMultiLineComment (pyStrip line) = .code then 1 else 0) ∧
    (countLineStep st line).data.blankLines = st.data.blankLines +
      (if specClassify st.inMultiLineComment (pyStrip line) = .blank then 1 else 0) :=
  (countLineStep_spec st line).2

/-- A line whose stripped form starts with a triple quote cannot start
with the hash mark. -/
theorem triple_head_not_hash (s : List Char)
    (h : (tripleS.isPrefixOf s || tripleD.isPrefixOf s) = true) :
    hashMark.isPrefixOf s = false := by
  rcases s with _ | ⟨a, t⟩
  · simp [tripleS, tripleD, List.isPrefixOf] at h
  · simp only [tripleS, tripleD, List.isPrefixOf, Bool.or_eq_true, Bool.and_eq_true,
      beq_iff_eq] at h
    have ha : a = squote ∨ a = dquote := by tauto
    have hh : ('#' == a) = false := by
      rcases ha with ha | ha <;> subst ha <;> decide
    simp [hashMark, List.isPrefixOf, hh]

/-- C4: a stripped line that both starts and ends with a triple-quote
delimiter (either style each) is counted as a comment and leaves
`inMultiLineComment` unchanged. -/
theorem closed_inline_triple_quote_comment (st : CountSt) (line : List Char)
    (h1 : (tripleS.isPrefixOf (pyStrip line) || tripleD.isPrefixOf (pyStrip line)) = true)
    (h2 : (tripleS.isSuffixOf (pyStrip line) || tripleD.isSuffixOf (pyStrip line)) = true) :
    (countLineStep st line).inMultiLineComment = st.inMultiLineComment ∧
    (countLineStep st line).data.commentLines = st.data.commentLines + 1 ∧
    (countLineStep st line).data.codeLines = st.data.codeLines ∧
    (countLineStep st line).data.blankLines = st.data.blankLines ∧
    (countLineStep st line).data.totalLines = st.data.totalLines + 1 := by
  have hh := triple_head_not_hash (pyStrip line) h1
  simp [countLineStep, hh, h1, h2]

/-- Witness for C4: the single line of `'''docstring'''` both starts and
ends with a delimiter, the state stays closed, and the produced record is
total 1, comment 1, code 0, blank 0. -/
theorem closed_inline_triple_quote_comment_w :
    ((tripleS.isPrefixOf (pyStrip inlineDocContent)
        || tripleD.isPrefixOf (pyStrip inlineDocContent)) = true) ∧
    (countLineStep ⟨initFileData ["d.py"], false⟩ inlineDocContent).inMultiLineComment
      = (⟨initFileData ["d.py"], false⟩ : CountSt).inMultiLineComment ∧
    count_file [] ["d.py"] fsInlineDoc = ([⟨["d.py"], 1, 1, 0, 0⟩], none) :=
  ⟨by decide,
   (closed_inline_triple_quote_comment ⟨initFileData ["d.py"], false⟩ inlineDocContent
      (by decide) (by decide)).1,
   by decide⟩

/-- C2 counterexample: on the three lines of a bare triple-quote pair the
classifier does not produce total 3, comment 3, code 0, blank 0: a bare
delimiter line also ends with a delimiter, so it never toggles the state,
and the middle line is counted as code. -/
theorem bare_triple_quotes_not_all_comments :
    count_file [] ["f.py"] fsBareTriple ≠ ([⟨["f.py"], 3, 3, 0, 0⟩], none) := by decide

/-- C2 (amended): the file splits into the three expected lines, the
delimiter lines are comments that never toggle the state, the middle line
is code, and the run succeeds with total 3, comment 2, code 1, blank 0. -/
theorem bare_triple_quotes_file_counts :
    splitlines bareTripleContent = [tripleS, "inside".toList, tripleS] ∧
    (countLines ["f.py"] (splitlines bareTripleContent)).inMultiLineComment = false ∧
    count_file [] ["f.py"] fsBareTriple = ([⟨["f.py"], 3, 2, 1, 0⟩], none) := by decide

/-- C5: for a readable file, `count_file` raises `CommentNotClosed` naming
that file exactly when `inMultiLineComment` is still true after all lines,
and in that case no record is appended to the collection. -/
theorem commentNotClosed_iff_state_open (ds : List FileData) (file : FPath)
    (fs : FileSystem) (content : List Char) (h : fs file = some content) :
    ((count_file ds file fs).2 = some (.commentNotClosed file) ↔
      (countLines file (splitlines content)).inMultiLineComment = true) ∧
    ((count_file ds file fs).2 = some (.commentNotClosed file) →
      (count_file ds file fs).1 = ds) := by
  have hrw : count_file ds file fs
      = if (countLines file (splitlines content)).inMultiLineComment then
          (ds, some (.commentNotClosed file))
        else (ds ++ [(countLines file (splitlines content)).data], none) := by
    unfold count_file
    rw [h]
  rw [hrw]
  by_cases hm : (countLines file (splitlines content)).inMultiLineComment <;> simp [hm]

/-- Witness for C5 at the unterminated file. -/
theorem commentNotClosed_iff_state_open_w :
    fsUnterminated ["u.py"] = some unterminatedContent ∧
    (((count_file [] ["u.py"] fsUnterminated).2
        = some (.commentNotClosed ["u.py"]) ↔
      (countLines ["u.py"] (splitlines unterminatedContent)).inMultiLineComment = true) ∧
    ((count_file [] ["u.py"] fsUnterminated).2
        = some (.commentNotClosed ["u.py"]) →
      (count_file [] ["u.py"] fsUnterminated).1 = [])) :=
  ⟨by decide,
   commentNotClosed_iff_state_open [] ["u.py"] fsUnterminated unterminatedContent
     (by decide)⟩

/-- C6 (amended): the batch re-checks existence before classifying; the
first missing path raises `FileNotFoundError` naming it and the first
unterminated file raises `CommentNotClosed` naming it, in both cases
without touching the remaining paths. -/
theorem count_files_fail_fast (ds : List FileData) (fs : FileSystem)
    (f : FPath) (rest : List FPath) :
    (fs f = none → count_files ds (f :: rest) fs = (ds, some (.fileNotFound f))) ∧
    (∀ content, fs f = some content →
      (countLines f (splitlines content)).inMultiLineComment = true →
      count_files ds (f :: rest) fs = (ds, some (.commentNotClosed f))) := by
  constructor
  · intro h
    unfold count_files
    simp [h]
  · intro content hc hm
    have hcf : count_file ds f fs = (ds, some (.commentNotClosed f)) := by
      unfold count_file
      rw [hc]
      simp [hm]
    unfold count_files
    rw [hcf]
    simp [hc]

/-- Witness for C6 at a missing path and at an unterminated file. -/
theorem count_files_fail_fast_w :
    count_files [] [["b.py"], ["a.py"]] fsBatch
      = ([], some (.fileNotFound ["b.py"])) ∧
    count_files [] [["u.py"], ["a.py"]] fsBatch
      = ([], some (.commentNotClosed ["u.py"])) :=
  ⟨(count_files_fail_fast [] fsBatch ["b.py"] [["a.py"]]).1 (by decide),
   (count_files_fail_fast [] fsBatch ["u.py"] [["a.py"]]).2
     (tripleS ++ "ab".toList) (by decide) (by decide)⟩

/-- C6 counterexample: when the second file of a batch is missing, the
record already produced for the first file remains in the session's
collection, so the failure does not discard all work of the invocation. -/
theorem count_files_earlier_record_survives :
    count_files [] [["a.py"], ["b.py"]] fsBatch
      = ([⟨["a.py"], 1, 0, 1, 0⟩], some (.fileNotFound ["b.py"])) ∧
    (count_files [] [["a.py"], ["b.py"]] fsBatch).1 ≠ [] := by decide

/-- Appending one character makes its break status the final one. -/
theorem endsWithBreak_append_single (cs : List Char) (t : Char) :
    endsWithBreak (cs ++ [t]) = isLineBreak t := by
  induction cs with
  | nil => rfl
  | cons c cs ih =>
      rcases cs with _ | ⟨d, cs2⟩
      · rfl
      · simpa [endsWithBreak] using ih

/-- On content that ends with a line boundary, the keep-trailing split is
the real split plus one final empty segment. -/
theorem splitKeepAux_eq_splitlinesAux (n : Nat) :
    ∀ cs : List Char, cs.length ≤ n → ∀ acc : List Char,
      (endsWithBreak cs = true ∨ (cs = [] ∧ acc = [])) →
      splitKeepAux cs acc = splitlinesAux cs acc ++ [([] : List Char)] := by
  induction n with
  | zero =>
      intro cs hlen acc h
      have hcs : cs = [] := List.length_eq_zero.mp (Nat.le_zero.mp hlen)
      subst hcs
      rcases h with h | ⟨-, h⟩
      · simp [endsWithBreak] at h
      · subst h
        rfl
  | succ n ih =>
      intro cs hlen acc h
      rcases cs with _ | ⟨c, rest⟩
      · rcases h with h | ⟨-, h⟩
        · simp [endsWithBreak] at h
        · subst h
          rfl
      rcases rest with _ | ⟨d, rest2⟩
      · have hc : isLineBreak c = true := by
          rcases h with h | ⟨h, -⟩
          · simpa [endsWithBreak] using h
          · simp at h
        simp [splitKeepAux, splitlinesAux, hc]
      · have hend : endsWithBreak (d :: rest2) = true := by
          rcases h with h | ⟨h, -⟩
          · simpa [endsWithBreak] using h
          · simp at h
        have hlen2 : rest2.length ≤ n := by
          simp only [List.length_cons] at hlen
          omega
        have hlen1 : (d :: rest2).length ≤ n := by
          simp only [List.length_cons] at hlen ⊢
          omega
        by_cases hc : isLineBreak c
        · by_cases hcd : c = '\r' ∧ d = '\n'
          · have hr : splitKeepAux rest2 [] = splitlinesAux rest2 [] ++ [[]] := by
              apply ih rest2 hlen2 []
              rcases rest2 with _ | ⟨e, r3⟩
              · right
                exact ⟨rfl, rfl⟩
              · left
                simpa [endsWithBreak] using hend
            obtain ⟨hc1, hc2⟩ := hcd
            subst hc1
            subst hc2
            simp [splitKeepAux, splitlinesAux, hr, isLineBreak]
          · have hr := ih (d :: rest2) hlen1 [] (Or.inl hend)
            simp [splitKeepAux, splitlinesAux, hc, hcd, hr]
        · have hr := ih (d :: rest2) hlen1 (c :: acc) (Or.inl hend)
          simp [splitKeepAux, splitlinesAux, hc, hr]

/-- Specialisation to content with one terminator appended. -/
theorem splitKeep_trailing (cs : List Char) (t : Char) (h : isLineBreak t = true) :
    splitKeep (cs ++ [t]) = splitlines (cs ++ [t]) ++ [([] : List Char)] := by
  apply splitKeepAux_eq_splitlinesAux (cs ++ [t]).length (cs ++ [t]) le_rfl []
  left
  rw [endsWithBreak_append_single]
  exact h

/-- Folding one extra line at the end of the loop. -/
theorem countLines_concat (file : FPath) (L : List (List Char)) (l : List Char) :
    countLines file (L ++ [l]) = countLineStep (countLines file L) l := by
  simp [countLines, List.foldl_append]

/-- The step on an empty line: the total always grows by one, and with the
state closed the blank count grows by one. -/
theorem countLineStep_nil (st : CountSt) :
    (countLineStep st []).data.totalLines = st.data.totalLines + 1 ∧
    (st.inMultiLineComment = false →
      (countLineStep st []).data.blankLines = st.data.blankLines + 1) := by
  by_cases hm : st.inMultiLineComment <;>
    simp [countLineStep, pyStrip, hm, hashMark, tripleS, tripleD, List.isPrefixOf]

/-- C8: for content that ends in a line terminator, the split used by the
classifier omits exactly the trailing empty line the terminator produces,
so that line contributes nothing to `totalLines` (nor, in a successful
run, to `blankLines`). -/
theorem trailing_terminator_not_counted (cs : List Char) (t : Char)
    (h : isLineBreak t = true) :
    splitKeep (cs ++ [t]) = splitlines (cs ++ [t]) ++ [([] : List Char)] ∧
    (∀ file, (countLines file (splitKeep (cs ++ [t]))).data.totalLines
        = (countLines file (splitlines (cs ++ [t]))).data.totalLines + 1) ∧
    (∀ file, (countLines file (splitlines (cs ++ [t]))).inMultiLineComment = false →
      (countLines file (splitKeep (cs ++ [t]))).data.blankLines
        = (countLines file (splitlines (cs ++ [t]))).data.blankLines + 1) := by
  have hsp := splitKeep_trailing cs t h
  refine ⟨hsp, ?_, ?_⟩
  · intro file
    rw [hsp, countLines_concat]
    exact (countLineStep_nil _).1
  · intro file hm
    rw [hsp, countLines_concat]
    exact (countLineStep_nil _).2 hm

/-- Witness for C8 at the two-character content of one letter and one
newline. -/
theorem trailing_terminator_not_counted_w :
    isLineBreak '\n' = true ∧
    splitKeep (['a'] ++ ['\n']) = splitlines (['a'] ++ ['\n']) ++ [([] : List Char)] ∧
    (countLines ["w.py"] (splitKeep (['a'] ++ ['\n']))).data.totalLines
      = (countLines ["w.py"] (splitlines (['a'] ++ ['\n']))).data.totalLines + 1 ∧
    (countLines ["w.py"] (splitKeep (['a'] ++ ['\n']))).data.blankLines
      = (countLines ["w.py"] (splitlines (['a'] ++ ['\n']))).data.blankLines + 1 :=
  have ht : isLineBreak '\n' = true := by decide
  have h := trailing_terminator_not_counted ['a'] '\n' ht
  ⟨ht, h.1, h.2.1 ["w.py"], h.2.2 ["w.py"] (by decide)⟩

/-- The bare name of a child path is its entry name. -/
theorem pathName_append (p : FPath) (nm : String) :
    pathName (p ++ [nm]) = nm := by
  simp [pathName, List.getLast?_concat]

/-- Every path produced by the directory walk has a name outside
`ignoreNames`, a path outside `ignorePaths`, and a matching extension. -/
theorem walkEntries_mem (s : Settings) (n : Nat) :
    ∀ es : EntryList, sizeOf es ≤ n → ∀ p q : FPath, q ∈ walkEntries s p es →
      pathName q ∉ s.ignoreNames ∧ q ∉ s.ignorePaths ∧
      pySuffix (pathName q) ∈ PYTHON_FILE_EXTENSIONS := by
  induction n with
  | zero =>
      intro es hlen p q hq
      cases es with
      | nil => simp [walkEntries] at hq
      | cons e rest => simp at hlen
  | succ n ih =>
      intro es hlen p q hq
      cases es with
      | nil => simp [walkEntries] at hq
      | cons e rest =>
          rw [walkEntries] at hq
          rcases List.mem_append.mp hq with hq | hq
          · cases e with
            | file nm =>
                rw [walkEntry] at hq
                split_ifs at hq with h1 h2 h3
                all_goals simp at hq
                subst hq
                rw [pathName_append]
                push_neg at h1
                exact ⟨h2, h3, h1⟩
            | dir nm es2 =>
                rw [walkEntry] at hq
                split_ifs at hq with h1 h2 h3
                · simp at hq
                · simp at hq
                · simp at hq
                · have hsz : sizeOf es2 ≤ n := by
                    simp at hlen
                    omega
                  exact ih es2 hsz (p ++ [nm]) q hq
          · have hsz : sizeOf rest ≤ n := by
              simp at hlen
              omega
            exact ih rest hsz p q hq

/-- C7 counterexample: a root path that is itself a file is returned by
discovery even though its bare name is in `ignoreNames`; only the
extension is checked on that branch. -/
theorem root_file_skips_ignore_rules :
    get_py_files sIgnoredRoot ["a.py"] (Entry.file "a.py") = .ok [["a.py"]] ∧
    pathName ["a.py"] ∈ sIgnoredRoot.ignoreNames := by
  constructor
  · rfl
  · decide

/-- C7 (amended): every path discovery returns has a matching extension
in all cases; and when the root is a directory, discovery also never
returns a path whose bare name is in `ignoreNames` or whose path is in
`ignorePaths` — but a file root bypasses these two ignore checks. -/
theorem discovery_respects_exclusions (s : Settings) (p : FPath) (e : Entry)
    (ps : List FPath) (h : get_py_files s p e = .ok ps) :
    (∀ q ∈ ps, pySuffix (pathName q) ∈ PYTHON_FILE_EXTENSIONS) ∧
    (∀ nm es, e = Entry.dir nm es →
      ∀ q ∈ ps, pathName q ∉ s.ignoreNames ∧ q ∉ s.ignorePaths) := by
  cases e with
  | file nm =>
      refine ⟨?_, ?_⟩
      · intro q hq
        unfold get_py_files at h
        by_cases hs : pySuffix (pathName p) ∈ PYTHON_FILE_EXTENSIONS
        · rw [if_pos hs] at h
          simp at h
          subst h
          simp at hq
          subst hq
          exact hs
        · rw [if_neg hs] at h
          simp at h
      · intro nm2 es2 heq
        simp at heq
  | dir nm es =>
      unfold get_py_files at h
      simp at h
      subst h
      have hmem := walkEntries_mem s (sizeOf es) es le_rfl p
      refine ⟨fun q hq => (hmem q hq).2.2, fun nm2 es2 heq q hq => ?_⟩
      exact ⟨(hmem q hq).1, (hmem q hq).2.1⟩

/-- Witness for C7 at a concrete directory tree. -/
theorem discovery_respects_exclusions_w :
    get_py_files sWalk ["root"] (Entry.dir "root" treeWalk)
      = .ok [["root", "a.py"]] ∧
    pySuffix (pathName ["root", "a.py"]) ∈ PYTHON_FILE_EXTENSIONS ∧
    pathName ["root", "a.py"] ∉ sWalk.ignoreNames ∧
    ["root", "a.py"] ∉ sWalk.ignorePaths :=
  have h : get_py_files sWalk ["root"] (Entry.dir "root" treeWalk)
      = .ok [["root", "a.py"]] := by rfl
  have hm := discovery_respects_exclusions sWalk ["root"] (Entry.dir "root" treeWalk)
    [["root", "a.py"]] h
  ⟨h, hm.1 ["root", "a.py"] (by decide),
    (hm.2 "root" treeWalk rfl ["root", "a.py"] (by decide)).1,
    (hm.2 "root" treeWalk rfl ["root", "a.py"] (by decide)).2⟩

/-- C9: aggregating an empty record collection yields all-zero sums and
all-zero ratios without error, and in general a zero denominator makes
the guarded division yield zero. -/
theorem aggregate_empty_all_zero :
    aggregate [] = ⟨0, 0, 0, 0, 0, 0⟩ ∧
    ∀ numerator : Int, zero_safe_division numerator 0 = 0 := by
  constructor
  · simp [aggregate, zero_safe_division]
  · intro numerator
    simp [zero_safe_division]

/-- C10: the call in `get_arbitrary_settings` passes four positional
arguments to the five-field `Settings` constructor (no `outputDetail`),
so every call raises `TypeError` and never returns a value. -/
theorem get_arbitrary_settings_missing_field (cwd : FPath) :
    get_arbitrary_settings cwd = .error "TypeError" := rfl
